import Mathlib

/-!
Verification of the MemoFlow core against its natural-language specification.

The Python source is shallowly embedded:
* machine floats (Python `float`, IEEE-754 binary64) are modelled as the exact
  rational values of the doubles involved; `roundDouble` is round-to-nearest,
  ties-to-even at 53 significant bits, which is the IEEE rounding of a real to
  a (normal) double.  All numeric values appearing in this development are
  normal doubles, far from overflow and underflow, so neither is modelled;
* the filesystem is a finite map from repository-relative path strings to
  parsed note documents; YAML frontmatter serialization is modelled as the
  identity on that parsed representation;
* `datetime` values are carried as opaque ISO strings;
* randomness (`uuid.uuid4().hex`) is an input stream of hex strings.
-/

set_option maxRecDepth 100000

deriving instance DecidableEq for Except

namespace MemoFlow

/-! ## IEEE-754 binary64 model

A double is represented exactly as a dyadic rational `m * 2^e`.  All
arithmetic below is integer arithmetic, and `roundRatToDouble` is
round-to-nearest, ties-to-even at 53 significand bits — the IEEE rounding of
a real to a (normal) double.  The values of this development are normal and
far from overflow and underflow, so neither is modelled. -/

/-- A dyadic rational `m * 2^e`, the exact value of a binary64 float. -/
structure D where
  m : ℤ
  e : ℤ
deriving DecidableEq, Repr

/-- The value of a dyadic as a rational (specification side only). -/
def D.toRat (x : D) : ℚ := (x.m : ℚ) * (2 : ℚ) ^ x.e

/-- The dyadic as an integer fraction `(p, q)` with `q > 0`. -/
def D.asFrac (x : D) : ℤ × ℤ :=
  if 0 ≤ x.e then (x.m * 2 ^ x.e.toNat, 1) else (x.m, 2 ^ (-x.e).toNat)

/-- Comparison of dyadic values. -/
def dLe (x y : D) : Bool :=
  decide (x.m * 2 ^ (x.e - min x.e y.e).toNat ≤ y.m * 2 ^ (y.e - min x.e y.e).toNat)

/-- Equality of dyadic values (Python float `==`). -/
def dEq (x y : D) : Bool :=
  decide (x.m * 2 ^ (x.e - min x.e y.e).toNat = y.m * 2 ^ (y.e - min x.e y.e).toNat)

instance : BEq D := ⟨dEq⟩

/-- Multiply a dyadic by an integer (exact). -/
def dScale (x : D) (k : ℤ) : D := ⟨x.m * k, x.e⟩

/-- Exact sum of two dyadics. -/
def dAddExact (x y : D) : D :=
  ⟨x.m * 2 ^ (x.e - min x.e y.e).toNat + y.m * 2 ^ (y.e - min x.e y.e).toNat,
   min x.e y.e⟩

/-- Exact difference of two dyadics. -/
def dSubExact (x y : D) : D := dAddExact x ⟨-y.m, y.e⟩

/-- Fueled floor base-2 logarithm (all inputs here are below `2^200`). -/
def log2fuel : ℕ → ℕ → ℕ
  | 0, _ => 0
  | f + 1, n => if 2 ≤ n then log2fuel f (n / 2) + 1 else 0

/-- Floor base-2 logarithm of a natural number. -/
def natLog2 (n : ℕ) : ℕ := log2fuel 200 n

/-- `2^c ≤ p/q`, for positive `p`, `q`. -/
def le2pow (c : ℤ) (p q : ℤ) : Bool :=
  if 0 ≤ c then decide (q * 2 ^ c.toNat ≤ p) else decide (q ≤ p * 2 ^ (-c).toNat)

/-- Floor base-2 logarithm of the positive rational `p/q`. -/
def floorLog2Rat (p q : ℤ) : ℤ :=
  let c : ℤ := (natLog2 p.natAbs : ℤ) - (natLog2 q.natAbs : ℤ)
  if le2pow (c + 1) p q then c + 1 else if le2pow c p q then c else c - 1

/-- Nearest integer to `p/q` (with `q > 0`), ties to even. -/
def roundHalfEvenRat (p q : ℤ) : ℤ :=
  let f := Int.fdiv p q
  let r := p - f * q
  if 2 * r < q then f else if q < 2 * r then f + 1 else if f % 2 = 0 then f else f + 1

/-- Round the rational `p/q` (with `q > 0`) to the nearest binary64 value:
53-bit significand, round-to-nearest, ties-to-even. -/
def roundRatToDouble (p q : ℤ) : D :=
  if p = 0 then ⟨0, 0⟩
  else
    let pa : ℤ := p.natAbs
    let e := floorLog2Rat pa q
    let s := (52 : ℤ) - e
    let mm := if 0 ≤ s then roundHalfEvenRat (pa * 2 ^ s.toNat) q
              else roundHalfEvenRat pa (q * 2 ^ (-s).toNat)
    ⟨if p < 0 then -mm else mm, e - 52⟩

/-- Round an exact dyadic back to a double. -/
def dRound (x : D) : D := roundRatToDouble x.asFrac.1 x.asFrac.2

/-- The double denoted by the Python decimal literal with value `n / 10^d`. -/
def pyFloat (n : ℤ) (d : ℕ) : D := roundRatToDouble n (10 ^ d)

/-- Python float addition: exact sum, rounded back to a double. -/
def pyAdd (x y : D) : D := dRound (dAddExact x y)

/-- Python float subtraction. -/
def pySub (x y : D) : D := dRound (dSubExact x y)

/-- Python float division (division by zero does not occur here). -/
def pyDiv (x y : D) : D :=
  let p := x.asFrac.1 * y.asFrac.2
  let q := x.asFrac.2 * y.asFrac.1
  if q = 0 then ⟨0, 0⟩
  else if q < 0 then roundRatToDouble (-p) (-q)
  else roundRatToDouble p q

/-- Python float `%`: the exact remainder `x - ⌊x/y⌋*y` (float modulo is
computed exactly, per `fmod` semantics). -/
def pymod (x y : D) : D :=
  let p := x.asFrac.1 * y.asFrac.2
  let q := x.asFrac.2 * y.asFrac.1
  if q = 0 then ⟨0, 0⟩
  else dSubExact x (dScale y (if q < 0 then Int.fdiv (-p) (-q) else Int.fdiv p q))

/-- Python `int()` applied to a float: truncation toward zero. -/
def pyTrunc (x : D) : ℤ :=
  if 0 ≤ x.e then x.m * 2 ^ x.e.toNat
  else if 0 ≤ x.m then Int.fdiv x.m (2 ^ (-x.e).toNat)
  else -(Int.fdiv (-x.m) (2 ^ (-x.e).toNat))

/-- Python `round(x, nd)` on a float: round to the closest multiple of
`10^-nd` (ties to even), then back to the nearest double. -/
def pyRound (x : D) (nd : ℕ) : D :=
  roundRatToDouble (roundHalfEvenRat (x.asFrac.1 * 10 ^ nd) x.asFrac.2) (10 ^ nd)

/-- Left-pad a natural number with zeros to the given width. -/
def padNat (k w : ℕ) : String :=
  let s := Nat.repr k
  if s.length < w then String.mk (List.replicate (w - s.length) '0') ++ s else s

/-- Python fixed-point formatting `f"{x:.ndf}"` of a float: the decimal string
of the value correctly rounded (ties to even) to `nd` fractional digits. -/
def formatFixed (x : D) (nd : ℕ) : String :=
  let n := (roundHalfEvenRat ((x.m.natAbs : ℤ) * 2 ^ (x.e - min x.e 0).toNat * 10 ^ nd)
    (2 ^ (0 - min x.e 0).toNat)).toNat
  let core := Nat.repr (n / 10 ^ nd) ++ "." ++ padNat (n % 10 ^ nd) nd
  if x.m < 0 then "-" ++ core else core

/-- Python `s.rstrip('0')`. -/
def rstripZeros (s : String) : String :=
  String.mk (s.toList.reverse.dropWhile (fun c => c == '0')).reverse

/-- Python `s.rstrip('.')`. -/
def rstripDot (s : String) : String :=
  String.mk (s.toList.reverse.dropWhile (fun c => c == '.')).reverse

/-! ## Errors

Each constructor stands for one distinct raise site in the Python source
(`FileNotFoundError` or `ValueError` with the corresponding message). -/

inductive MFError where
  /-- `HashManager.resolve`: no index entry matches the given hash. -/
  | notFound
  /-- `Memo.from_file`: the note file does not exist. -/
  | fileNotFound
  /-- `FileManager.read_file` and `move_file`: several index entries match. -/
  | ambiguousHash
  /-- `FileManager.create_file`: file type outside the closed set. -/
  | invalidType
  /-- `FileManager.move_file`: the note's current id differs from the expected one. -/
  | pathMismatch
  /-- `FileManager.move_file`: the target code fails schema validation. -/
  | invalidPath
  /-- `Memo.from_file`: required frontmatter fields are missing. -/
  | missingFields
  /-- `Schema.get_directory_path`: the code does not match the grammar. -/
  | invalidJdFormat
  /-- `Schema.get_directory_path`: no area with the given id. -/
  | areaNotFound
  /-- `Schema.get_directory_path`: the value lies in no category of the area. -/
  | itemNotInCategory
  /-- `HashManager.update_path`: the hash is absent from the index. -/
  | hashNotInIndex
  /-- `HashManager.generate_hash`: gave up after the bounded number of attempts. -/
  | generationExhausted
  /-- Python `TypeError`: a call passed a keyword argument the function does
  not accept. -/
  | unexpectedKeywordArgument
deriving DecidableEq, Repr

/-! ## Taxonomy (src/memoflow/mf/models/schema.py)

Category ranges hold the exact rational values of the doubles obtained from
parsing the schema file. -/

/-- Johnny.Decimal category (`Category` dataclass). -/
structure Category where
  id : ℤ
  name : String
  range : D × D
deriving DecidableEq, Repr

/-- `Category.contains`: `self.range[0] <= item_id <= self.range[1]`. -/
def Category.contains (c : Category) (item_id : D) : Bool :=
  dLe c.range.1 item_id && dLe item_id c.range.2

/-- Johnny.Decimal area (`Area` dataclass). -/
structure Area where
  id : ℤ
  name : String
  categories : List Category
deriving DecidableEq, Repr

/-- `Area.get_category`: first category with the given id, else `None`. -/
def Area.get_category (a : Area) (category_id : ℤ) : Option Category :=
  a.categories.find? (fun c => c.id == category_id)

/-- Johnny.Decimal schema (`Schema` dataclass).  The source field holding the
repository prefix is called `user_prefix`; it is renamed here to `userPrefix`. -/
structure Schema where
  userPrefix : String
  areas : List Area
deriving DecidableEq, Repr

/-- `Schema.get_area`: first area with the given id, else `None`. -/
def Schema.get_area (sc : Schema) (area_id : ℤ) : Option Area :=
  sc.areas.find? (fun a => a.id == area_id)

/-! ## The location-code grammar `^([A-Z]+)-(\d+)\.(\d{2,3})$`

The alternation-free regex is embedded as the equivalent deterministic
parser: `[A-Z]` and `-` are disjoint, as are `\d` and `.`, so the greedy
repetitions never backtrack, and `\d{2,3}$` accepts exactly an all-digit
tail of length 2 or 3.  (Python `\d` also accepts non-ASCII digits; inputs
in this development are ASCII, where the two coincide.) -/

/-- ASCII uppercase letter, the regex class `[A-Z]`. -/
def isUpperAZ (c : Char) : Bool := 'A' ≤ c && c ≤ 'Z'

/-- Value of a digit string (`int`), most significant first. -/
def digitsToNat (s : String) : ℕ :=
  s.toList.foldl (fun acc c => acc * 10 + (c.toNat - '0'.toNat)) 0

/-- Match `^([A-Z]+)-(\d+)\.(\d{2,3})$` and return the three groups. -/
def matchJd (s : String) : Option (String × String × String) :=
  match s.toList.dropWhile isUpperAZ with
  | [] => none
  | c1 :: rest1 =>
    match rest1.dropWhile Char.isDigit with
    | [] => none
    | c2 :: rest3 =>
      if c1 == '-' && c2 == '.' && s.toList.takeWhile isUpperAZ ≠ [] &&
          rest1.takeWhile Char.isDigit ≠ [] && rest3.all Char.isDigit &&
          (rest3.length == 2 || rest3.length == 3) then
        some (String.mk (s.toList.takeWhile isUpperAZ),
              String.mk (rest1.takeWhile Char.isDigit), String.mk rest3)
      else none

/-- The double obtained by `float(f"{areaStr}.{itemStr}")`. -/
def decimalValue (areaStr itemStr : String) : D :=
  roundRatToDouble ((digitsToNat areaStr * 10 ^ itemStr.length
    + digitsToNat itemStr : ℕ) : ℤ) ((10 ^ itemStr.length : ℕ) : ℤ)

/-- `Schema.validate_path`: regex match, then prefix check, then area lookup,
then containment in some category of that area; `False` on every failure. -/
def Schema.validate_path (sc : Schema) (path : String) : Bool :=
  match matchJd path with
  | none => false
  | some (pre, areaStr, itemStr) =>
    if pre ≠ sc.userPrefix then false
    else
      match sc.get_area (digitsToNat areaStr : ℤ) with
      | none => false
      | some area =>
        area.categories.any (fun c => c.contains (decimalValue areaStr itemStr))

/-- The IEEE doubles of the literals `0.01` and `0.001` used by
`Schema.get_directory_path`. -/
def d0_01 : D := pyFloat 1 2

/-- The double of the literal `0.001`. -/
def d0_001 : D := pyFloat 1 3

/-- `Schema.get_directory_path`, returning the directory relative to the
repository root as `"{area}-{area+10}/{rangeStart}-{rangeEnd}"`; raises are
modelled as errors. -/
def Schema.get_directory_path (sc : Schema) (jd_id : String) : Except MFError String :=
  match matchJd jd_id with
  | none => .error .invalidJdFormat
  | some (_, areaStr, itemStr) =>
    let area_id : ℤ := (digitsToNat areaStr : ℤ)
    let item_id := decimalValue areaStr itemStr
    match sc.get_area area_id with
    | none => .error .areaNotFound
    | some area =>
      match area.categories.find? (fun c => c.contains item_id) with
      | none => .error .itemNotInCategory
      | some category =>
        let area_range := toString area_id ++ "-" ++ toString (area_id + 10)
        let range_start := category.range.1
        let range_end := category.range.2
        let category_range :=
                if dLe d0_001 (pymod range_start d0_01) || dLe d0_001 (pymod range_end d0_01) then
            formatFixed range_start 3 ++ "-" ++ formatFixed range_end 3
          else
            formatFixed range_start 2 ++ "-" ++ formatFixed range_end 2
        .ok (area_range ++ "/" ++ category_range)

/-! ## Johnny.Decimal utilities (src/memoflow/mf/utils/jd.py) -/

/-- `parse_jd_id`: parse into `(prefix, area_id, item_id)` with the item
value as a double. -/
def parse_jd_id (jd_id : String) : Option (String × ℤ × D) :=
  match matchJd jd_id with
  | none => none
  | some (pre, areaStr, itemStr) =>
    some (pre, (digitsToNat areaStr : ℤ), decimalValue areaStr itemStr)

/-- `format_jd_id`: render the item value with two decimals when its
three-decimal rendering strips to the same string, else with three; the
`area_id` argument is unused in the source as well. -/
def format_jd_id (pre : String) (area_id : ℤ) (item_id : D) : String :=
  let s3 := formatFixed item_id 3
  let s2 := formatFixed item_id 2
  let _ := area_id
  if rstripDot (rstripZeros s3) == rstripDot (rstripZeros s2) then
    pre ++ "-" ++ s2
  else
    pre ++ "-" ++ s3

/-! ## Note documents (src/memoflow/mf/models/memo.py)

A note file is modelled as its parsed frontmatter document: an ordered
key/value metadata dictionary plus the markdown body.  YAML values occurring
in this program are strings, lists of strings, and `None`. -/

/-- A frontmatter metadata value. -/
inductive FMVal where
  | str (v : String)
  | strList (vs : List String)
  | noneV
deriving DecidableEq, Repr

/-- A parsed note file: frontmatter metadata plus body. -/
structure FMDoc where
  metadata : List (String × FMVal)
  content : String
deriving DecidableEq, Repr

/-- Dictionary lookup (`metadata.get(k)` / `metadata[k]`). -/
def dictGet (m : List (String × FMVal)) (k : String) : Option FMVal :=
  (m.find? (fun p => p.1 == k)).map (fun p => p.2)

/-- Dictionary update: replace in place when the key exists, else append
(Python dict insertion order). -/
def dictSet (m : List (String × FMVal)) (k : String) (v : FMVal) : List (String × FMVal) :=
  if (m.find? (fun p => p.1 == k)).isSome then
    m.map (fun p => if p.1 == k then (k, v) else p)
  else m ++ [(k, v)]

/-- The `Memo` dataclass.  `created_at` and `due_date` carry the ISO strings
of the corresponding datetimes. -/
structure Memo where
  uuid : String
  id : String
  title : String
  status : String
  created_at : String
  type : Option String
  due_date : Option String
  tags : List String
  content : String
  file_path : Option String
deriving DecidableEq, Repr

/-- `Memo.to_frontmatter`: the five required keys always, then `type` when
truthy (present and nonempty), `due_date` when present (a datetime is always
truthy), `tags` when nonempty. -/
def Memo.to_frontmatter (m : Memo) : List (String × FMVal) :=
  let md := [("uuid", FMVal.str m.uuid), ("id", FMVal.str m.id),
    ("title", FMVal.str m.title), ("status", FMVal.str m.status),
    ("created_at", FMVal.str m.created_at)]
  let md := match m.type with
    | some t => if t = "" then md else md ++ [("type", FMVal.str t)]
    | none => md
  let md := match m.due_date with
    | some d => md ++ [("due_date", FMVal.str d)]
    | none => md
  match m.tags with
  | [] => md
  | _ => md ++ [("tags", FMVal.strList m.tags)]

/-- `Memo.to_markdown`: serialize; in this model the file content is the
document itself. -/
def Memo.to_markdown (m : Memo) : FMDoc :=
  { metadata := m.to_frontmatter, content := m.content }

/-- `Memo.from_file` on an already-loaded document: the five required fields
must be present (in files written by this program they are string-valued,
which the model requires); `type` and `due_date` default to `None`; `tags`
defaults to `[]`, and a non-list `tags` value is replaced by `[]`. -/
def Memo.from_file (file_path : String) (doc : FMDoc) : Except MFError Memo :=
  match dictGet doc.metadata "uuid", dictGet doc.metadata "id",
      dictGet doc.metadata "title", dictGet doc.metadata "status",
      dictGet doc.metadata "created_at" with
  | some (.str uuid), some (.str id), some (.str title), some (.str status),
      some (.str created_at) =>
    let mtype := match dictGet doc.metadata "type" with
      | some (.str t) => some t
      | _ => none
    let mdue := match dictGet doc.metadata "due_date" with
      | some (.str d) => some d
      | _ => none
    let mtags := match dictGet doc.metadata "tags" with
      | some (.strList l) => l
      | _ => []
    .ok { uuid := uuid, id := id, title := title, status := status,
          created_at := created_at, type := mtype, due_date := mdue,
          tags := mtags, content := doc.content, file_path := some file_path }
  | _, _, _, _, _ => .error .missingFields

/-! ## HashIndex (src/memoflow/mf/core/hash_manager.py)

Paths are kept repository-relative, so `Path.relative_to(repo_root)` is the
identity here. -/

/-- One value of the hash index: `{path, id, last_updated}`. -/
structure IndexEntry where
  path : String
  id : Option String
  last_updated : String
deriving DecidableEq, Repr

/-- The index, a dictionary keyed by hash. -/
abbrev HashIndex := List (String × IndexEntry)

/-- `short_hash in self.index`. -/
def keyMem (index : HashIndex) (h : String) : Bool :=
  (index : List (String × IndexEntry)).any (fun p => p.1 == h)

/-- The collision loop of `HashManager.generate_hash`.  `fuel` is the number
of attempts still allowed out of `max_attempts = 100`; the loop ends as soon
as the candidate is fresh or the attempts are exhausted.  `uuids` is the
stream of values drawn from `uuid.uuid4().hex`, `uix` the index of the draw
currently in use. -/
def generateHashLoop (uuids : ℕ → String) (index : HashIndex) :
    ℕ → ℕ → String → ℕ → String
  | 0, _, shortHash, _ => shortHash
  | fuel + 1, uix, shortHash, length =>
    if keyMem index shortHash then
      if length < 12 then
        generateHashLoop uuids index fuel uix ((uuids uix).take (length + 1)) (length + 1)
      else
        generateHashLoop uuids index fuel (uix + 1) ((uuids (uix + 1)).take 6) 6
    else shortHash

/-- `HashManager.generate_hash`: start from the first 6 characters of a
random draw, extend to up to 12 on collision, then redraw; give up with an
error after 100 attempts. -/
def HashManager.generate_hash (uuids : ℕ → String) (index : HashIndex) :
    Except MFError String :=
  let shortHash := generateHashLoop uuids index 100 0 ((uuids 0).take 6) 6
  if keyMem index shortHash then .error .generationExhausted else .ok shortHash

/-- `HashManager.register`: insert or overwrite the entry and persist. -/
def HashManager.register (index : HashIndex) (hash_id file_path : String)
    (jd_id : Option String) (now : String) : HashIndex :=
  let entry : IndexEntry := { path := file_path, id := jd_id, last_updated := now }
  if keyMem index hash_id then
    (index : List (String × IndexEntry)).map
      (fun p => if p.1 == hash_id then (hash_id, entry) else p)
  else (index : List (String × IndexEntry)) ++ [(hash_id, entry)]

/-- Python `h.startswith(pre)`, at the character level. -/
def strStartsWith (pre s : String) : Bool := List.isPrefixOf pre.toList s.toList

/-- `HashManager.resolve`: the paths of every entry whose hash starts with
the given partial hash; an empty match list is a not-found error. -/
def HashManager.resolve (index : HashIndex) (partHash : String) :
    Except MFError (List String) :=
  let ms := ((index : List (String × IndexEntry)).filter
    (fun p => strStartsWith partHash p.1)).map (fun p => p.2.path)
  if ms.isEmpty then .error .notFound else .ok ms

/-- `HashManager.update_path`: in-place update of an existing entry; the new
code replaces the stored one only when truthy; errors when the hash is
absent. -/
def HashManager.update_path (index : HashIndex) (hash_id new_path : String)
    (new_jd_id : Option String) (now : String) : Except MFError HashIndex :=
  if keyMem index hash_id then
    .ok ((index : List (String × IndexEntry)).map (fun p =>
      if p.1 == hash_id then
        (p.1, { path := new_path,
                id := match new_jd_id with
                  | some j => if j = "" then p.2.id else some j
                  | none => p.2.id,
                last_updated := now })
      else p))
  else .error .hashNotInIndex

/-! ## VersionLog (src/memoflow/mf/core/git_engine.py) -/

/-- `CommitType` enumeration. -/
inductive CommitType where
  | feat
  | refactor
  | docs
  | chore
deriving DecidableEq, Repr

/-- The `.value` string of a commit type. -/
def CommitType.value : CommitType → String
  | .feat => "feat"
  | .refactor => "refactor"
  | .docs => "docs"
  | .chore => "chore"

/-- A recorded commit: its structured message and the files staged for it. -/
structure Commit where
  ctype : CommitType
  message : String
  staged : List String
deriving DecidableEq, Repr

/-- Relative path of the persisted hash index file. -/
def hashIndexFile : String := ".mf/hash_index.json"

/-- The complete mutable store: note files, hash index, whether the index
file has been written to disk, and the version log. -/
structure MFState where
  files : List (String × FMDoc)
  index : HashIndex
  indexFileExists : Bool
  commits : List Commit
deriving DecidableEq, Repr

/-- Content of the note file at a path, when it exists. -/
def MFState.getFile (st : MFState) (p : String) : Option FMDoc :=
  ((st.files.find? (fun q => q.1 == p)).map (fun q => q.2))

/-- Write (create or overwrite) a note file. -/
def MFState.setFile (st : MFState) (p : String) (doc : FMDoc) : MFState :=
  if (st.files.find? (fun q => q.1 == p)).isSome then
    { st with files := st.files.map (fun q => if q.1 == p then (p, doc) else q) }
  else { st with files := st.files ++ [(p, doc)] }

/-- `Path.unlink`. -/
def MFState.removeFile (st : MFState) (p : String) : MFState :=
  { st with files := st.files.filter (fun q => !(q.1 == p)) }

/-- `Path.exists` for the paths `auto_commit` may stage: note files, plus
the hash index file once it has been saved. -/
def MFState.pathExists (st : MFState) (p : String) : Bool :=
  (st.files.find? (fun q => q.1 == p)).isSome ||
    (p == hashIndexFile && st.indexFileExists)

/-- `GitEngine.auto_commit`: stage each listed file that exists (missing
ones are skipped with a warning), then commit
`"{type}({scope}): {message}"`. -/
def GitEngine.auto_commit (st : MFState) (commit_type : CommitType)
    (scope message : String) (files : List String) : MFState :=
  let staged := files.filter st.pathExists
  let full_message := commit_type.value ++ "(" ++ scope ++ "): " ++ message
  { st with commits := st.commits ++
      [{ ctype := commit_type, message := full_message, staged := staged }] }

/-- The parameters accepted by `GitEngine.auto_commit` in the source:
`(self, commit_type, scope, message, files)` — and no others. -/
def autoCommitParams : List String := ["commit_type", "scope", "message", "files"]

/-- A Python call to `auto_commit`: positional arguments as in the source,
plus the names of any extra keyword arguments supplied at the call site.  A
keyword argument that is not a parameter of the function raises `TypeError`
before the body runs. -/
def callAutoCommit (st : MFState) (commit_type : CommitType)
    (scope message : String) (files : List String) (extraKwargs : List String) :
    Except MFError MFState :=
  if extraKwargs.all (fun k => autoCommitParams.contains k) then
    .ok (GitEngine.auto_commit st commit_type scope message files)
  else .error .unexpectedKeywordArgument

/-! ## NoteStore (src/memoflow/mf/core/file_manager.py)

Mutating operations take the whole store state and return either the new
state with the result, or the raised error together with the state as it was
at the raise (the checks-precede-mutation structure of the source is thereby
visible in the theorems). -/

/-- Result of a mutating store operation. -/
abbrev MFResult (α : Type) := Except (MFError × MFState) (MFState × α)

/-- The state an operation left behind, whether it returned or raised. -/
def resultState {α : Type} : MFResult α → MFState
  | .ok (st, _) => st
  | .error (_, st) => st

/-- `valid_types` from `FileManager.create_file`. -/
def validTypes : List String := ["meeting", "note", "task", "email"]

/-- The inbox directory name. -/
def inboxDir : String := "00-Inbox"

/-- Is `p` a file directly inside `dir` matching the glob `*.md`? -/
def isMdFileIn (dir p : String) : Bool :=
  let d := dir.toList ++ ['/']
  List.isPrefixOf d p.toList &&
    (let rest := p.toList.drop d.length
     rest.all (fun c => !(c == '/')) && List.isPrefixOf ['d', 'm', '.'] rest.reverse)

/-- `Path.name`: the last path component. -/
def fileName (p : String) : String :=
  String.mk (p.toList.reverse.takeWhile (fun c => !(c == '/'))).reverse

/-- Replace each maximal run of dashes and whitespace by a single dash
(`re.sub(r"[-\s]+", "-", s)`). -/
def collapseDashes : List Char → List Char
  | [] => []
  | c :: rest =>
    let c2 := if c == '-' || c.isWhitespace then '-' else c
    match collapseDashes rest with
    | [] => [c2]
    | d :: ds => if c2 == '-' && d == '-' then d :: ds else c2 :: d :: ds

/-- `FileManager._sanitize_filename`: drop characters outside `[\w\s-]`,
collapse dash/whitespace runs to a dash, truncate to 50 characters.  (`\w`
is modelled at its ASCII fragment; the titles in this development are
ASCII.) -/
def sanitizeFilename (title : String) : String :=
  let kept := title.toList.filter
    (fun c => c.isAlphanum || c == '_' || c.isWhitespace || c == '-')
  (String.mk (collapseDashes kept)).take 50

/-- `SchemaManager.generate_temp_id`: `f"{prefix}-00.{counter:02d}"`. -/
def SchemaManager.generate_temp_id (sc : Schema) (counter : ℕ) : String :=
  sc.userPrefix ++ "-00." ++ padNat counter 2

/-- `FileManager.create_file`: validate the type when given, generate a
hash, build the provisional id from the inbox file count, write the note,
register the hash, commit type `feat` scope `"new"` (commit failures are
swallowed), and return `(hash, path)`. -/
def FileManager.create_file (sc : Schema) (st : MFState) (uuids : ℕ → String)
    (now : String) (file_type : Option String) (title content : String)
    (target_dir : Option String) : MFResult (String × String) :=
  if (match file_type with
      | some t => !(validTypes.contains t)
      | none => false) then
    .error (.invalidType, st)
  else
    match HashManager.generate_hash uuids st.index with
    | .error e => .error (e, st)
    | .ok hash_id =>
      let tdir := target_dir.getD inboxDir
      let inbox_count := (st.files.filter (fun q => isMdFileIn inboxDir q.1)).length + 1
      let temp_id := SchemaManager.generate_temp_id sc inbox_count
      let memo : Memo :=
        { uuid := hash_id, id := temp_id, type := file_type, title := title,
          status := "open", created_at := now, due_date := none, tags := [],
          content := content, file_path := none }
      let file_path := tdir ++ "/" ++ hash_id ++ "_" ++ sanitizeFilename title ++ ".md"
      let st1 := st.setFile file_path memo.to_markdown
      let st2 := { st1 with
        index := HashManager.register st1.index hash_id file_path (some temp_id) now,
        indexFileExists := true }
      let files_to_commit := [file_path] ++
        (if st2.indexFileExists then [hashIndexFile] else [])
      let st3 := match callAutoCommit st2 .feat "new" ("capture " ++ title)
          files_to_commit [] with
        | .ok s => s
        | .error _ => st2
      .ok (st3, (hash_id, file_path))

/-- `FileManager.read_file`: resolve the (possibly partial) hash, fail on
several matches, parse the single target file.  (The zero-match branch of
the source is unreachable: `resolve` already raised.) -/
def FileManager.read_file (st : MFState) (hash : String) : Except MFError Memo :=
  match HashManager.resolve st.index hash with
  | .error e => .error e
  | .ok paths =>
    if paths.length > 1 then .error .ambiguousHash
    else
      match paths with
      | [] => .error .notFound
      | p :: _ =>
        match st.getFile p with
        | none => .error .fileNotFound
        | some doc => Memo.from_file p doc

/-- `FileManager.move_file`: resolve the hash, check the expected current
id, validate the target code, write the note at the new location, delete
the old file, update the index, then attempt a `refactor` commit — the call
passes the keyword argument `removed_files`, which `auto_commit` does not
accept, and the resulting `TypeError` is caught and only logged. -/
def FileManager.move_file (sc : Schema) (st : MFState) (now : String)
    (hash_id old_path new_jd_id : String) : MFResult String :=
  match HashManager.resolve st.index hash_id with
  | .error e => .error (e, st)
  | .ok old_paths =>
    if old_paths.length > 1 then .error (.ambiguousHash, st)
    else
      match old_paths with
      | [] => .error (.notFound, st)
      | old_file_path :: _ =>
        match st.getFile old_file_path with
        | none => .error (.fileNotFound, st)
        | some doc =>
          match Memo.from_file old_file_path doc with
          | .error e => .error (e, st)
          | .ok memo =>
            if memo.id ≠ old_path then .error (.pathMismatch, st)
            else if !(sc.validate_path new_jd_id) then .error (.invalidPath, st)
            else
              let post := { doc with metadata := dictSet doc.metadata "id" (.str new_jd_id) }
              match sc.get_directory_path new_jd_id with
              | .error e => .error (e, st)
              | .ok new_dir =>
                let new_path := new_dir ++ "/" ++ fileName old_file_path
                let st1 := (st.setFile new_path post).removeFile old_file_path
                match HashManager.update_path st1.index hash_id new_path (some new_jd_id) now with
                | .error e => .error (e, st1)
                | .ok idx2 =>
                  let st2 := { st1 with index := idx2, indexFileExists := true }
                  let files_to_commit := [new_path] ++
                    (if st2.indexFileExists then [hashIndexFile] else [])
                  let st3 := match callAutoCommit st2 .refactor hash_id
                      ("move from " ++ old_path ++ " to " ++ new_jd_id)
                      files_to_commit ["removed_files"] with
                    | .ok s => s
                    | .error _ => st2
                  .ok (st3, new_path)

/-- `", ".join(...)`. -/
def joinCommaSep (l : List String) : String := String.intercalate ", " l

/-- The single-quote character, for Python `repr` of strings. -/
def sq : String := String.singleton (Char.ofNat 39)

/-- Python `str` of an update value as interpolated into the auto-derived
commit message. -/
def renderVal : FMVal → String
  | .str s => s
  | .strList l => "[" ++ joinCommaSep (l.map (fun x => sq ++ x ++ sq)) ++ "]"
  | .noneV => "None"

/-- One item of the auto-derived commit message of `update_file`. -/
def describeUpdate (kv : String × FMVal) : String :=
  match kv.2 with
  | .noneV => "remove " ++ kv.1
  | v => "set " ++ kv.1 ++ " to " ++ renderVal v

/-- `FileManager.update_file`: read the note, patch body and/or metadata,
rewrite the file, commit with type `docs` and a derived or supplied message
(the index file is deliberately not staged), and return the re-parsed note.
The metadata patch is the ordered list of items of `frontmatter_updates`. -/
def FileManager.update_file (st : MFState) (hash_id : String)
    (content : Option String) (fm_updates : Option (List (String × FMVal)))
    (commit_message : Option String) : MFResult Memo :=
  match FileManager.read_file st hash_id with
  | .error e => .error (e, st)
  | .ok memo =>
    match memo.file_path with
    | none => .error (.fileNotFound, st)
    | some p =>
      match st.getFile p with
      | none => .error (.fileNotFound, st)
      | some post0 =>
        let post1 := match content with
          | some c => { post0 with content := c }
          | none => post0
        let post2 := match fm_updates with
          | some l =>
            if l.isEmpty then post1
            else { post1 with
              metadata := l.foldl (fun md kv => dictSet md kv.1 kv.2) post1.metadata }
          | none => post1
        let st1 := st.setFile p post2
        let msg := match commit_message with
          | some m => m
          | none =>
            match content with
            | some _ => "update content"
            | none =>
              match fm_updates with
              | some l =>
                if l.isEmpty then "update file"
                else joinCommaSep (l.map describeUpdate)
              | none => "update file"
        let st2 := match callAutoCommit st1 .docs hash_id msg [p] [] with
          | .ok s => s
          | .error _ => st1
        match Memo.from_file p post2 with
        | .error e => .error (e, st2)
        | .ok m2 => .ok (st2, m2)

/-! ## Next-free-code allocation (src/memoflow/mf/core/schema_manager.py) -/

/-- The `use_three_decimal` test of `generate_next_id`: does the
three-decimal rendering of the range start strip (trailing zeros, then a
trailing dot) to something other than the stripped two-decimal rendering? -/
def usesThreeDecimalStr (range_start : D) : Bool :=
  !(rstripDot (rstripZeros (formatFixed range_start 3)) ==
    rstripDot (rstripZeros (formatFixed range_start 2)))

/-- The `used_ids` set of `generate_next_id`: the item values of the notes
directly inside the category directory, skipping files that fail to parse. -/
def collectUsedIds (files : List (String × FMDoc)) (category_dir : String) : List D :=
  (files.filter (fun q => isMdFileIn category_dir q.1)).filterMap (fun q =>
    match Memo.from_file q.1 q.2 with
    | .error _ => none
    | .ok memo =>
      match parse_jd_id memo.id with
      | none => none
      | some (_, _, item_id) => some item_id)

/-- The scan loop of `generate_next_id`: walk from `range_start` in float
steps while `current <= range_end and iterations < max_iterations`,
returning the first value whose rounding is unused.  `fuel` strictly exceeds
the remaining permitted iterations, so the `0` case is never reached with a
true loop condition. -/
def nextIdLoop (pre : String) (area_id : ℤ) (range_end step : D) (prec : ℕ)
    (used : List D) (max_iterations : ℤ) : ℕ → ℤ → D → Option String
  | 0, _, _ => none
  | fuel + 1, iterations, current =>
    if dLe current range_end ∧ iterations < max_iterations then
      let current_rounded := pyRound current prec
      if used.contains current_rounded then
        nextIdLoop pre area_id range_end step prec used max_iterations fuel
          (iterations + 1) (pyRound (pyAdd current step) prec)
      else some (format_jd_id pre area_id current_rounded)
    else none

/-- `SchemaManager.generate_next_id`: pick the step and precision from the
range start's rendered precision, locate the category directory via a test
id, collect the used item values, then scan
`int((range_end - range_start) / step) + 1` steps — all of it in float
arithmetic — for the first free value. -/
def SchemaManager.generate_next_id (sc : Schema) (files : List (String × FMDoc))
    (area_id category_id : ℤ) : Except MFError (Option String) :=
  match sc.get_area area_id with
  | none => .ok none
  | some area =>
    match area.get_category category_id with
    | none => .ok none
    | some category =>
      let range_start := category.range.1
      let range_end := category.range.2
      let use3 := usesThreeDecimalStr range_start
      let test_id := sc.userPrefix ++ "-" ++
        (if use3 then formatFixed range_start 3 else formatFixed range_start 2)
      match sc.get_directory_path test_id with
      | .error e => .error e
      | .ok category_dir =>
        let used_ids := collectUsedIds files category_dir
        let step := if use3 then d0_001 else d0_01
        let prec := if use3 then 3 else 2
        let max_iterations := pyTrunc (pyDiv (pySub range_end range_start) step) + 1
        .ok (nextIdLoop sc.userPrefix area_id range_end step prec used_ids
          max_iterations (max_iterations.toNat + 1) 0 range_start)

/-! ## Concrete fixtures used by the witnesses and counterexample scenarios -/

/-- A store-written note document with the given hash and location code. -/
def mkDoc (uuid id : String) : FMDoc :=
  Memo.to_markdown
    { uuid := uuid, id := id, title := "t", status := "open",
      created_at := "2026-01-01T00:00:00", type := none, due_date := none,
      tags := [], content := "", file_path := none }

/-- The schema of the specification's own example: prefix `AC`, area 10,
one category with range `(10.001, 10.099)`. -/
def exSchema : Schema :=
  { userPrefix := "AC",
    areas := [{ id := 10, name := "area",
                categories := [{ id := 1, name := "cat",
                                 range := (pyFloat 10001 3, pyFloat 10099 3) }] }] }

/-- Prefix `HANK`, area 10, one category with range `(10.001, 10.099)` (the
shape of the default schema's first category). -/
def sc10 : Schema :=
  { userPrefix := "HANK",
    areas := [{ id := 10, name := "area",
                categories := [{ id := 1, name := "cat",
                                 range := (pyFloat 10001 3, pyFloat 10099 3) }] }] }

/-- Notes occupying `10.001` and `10.002` of `sc10`'s category. -/
def files10 : List (String × FMDoc) :=
  [("10-20/10.001-10.099/aaa111_t.md", mkDoc "aaa111" "HANK-10.001"),
   ("10-20/10.001-10.099/bbb222_t.md", mkDoc "bbb222" "HANK-10.002")]

/-- Prefix `HANK`, area 20, one category with range `(20.001, 20.003)`. -/
def sc20 : Schema :=
  { userPrefix := "HANK",
    areas := [{ id := 20, name := "area",
                categories := [{ id := 1, name := "cat",
                                 range := (pyFloat 20001 3, pyFloat 20003 3) }] }] }

/-- Notes occupying `20.001` and `20.002` of `sc20`'s category, leaving
`20.003` — the last value of the range — free. -/
def files20 : List (String × FMDoc) :=
  [("20-30/20.001-20.003/aaa111_t.md", mkDoc "aaa111" "HANK-20.001"),
   ("20-30/20.001-20.003/bbb222_t.md", mkDoc "bbb222" "HANK-20.002")]

/-- Prefix `HANK`, area 10, one category whose declared range
`(10.01, 10.09)` carries only two significant fractional digits. -/
def sc2dec : Schema :=
  { userPrefix := "HANK",
    areas := [{ id := 10, name := "area",
                categories := [{ id := 1, name := "cat",
                                 range := (pyFloat 1001 2, pyFloat 1009 2) }] }] }

/-- A store with one inbox note, hash `abc123`, provisional code
`HANK-00.01`, an up-to-date index, and an empty version log. -/
def stMove : MFState :=
  { files := [("00-Inbox/abc123_T.md", mkDoc "abc123" "HANK-00.01")],
    index := [("abc123", { path := "00-Inbox/abc123_T.md",
                           id := some "HANK-00.01", last_updated := "t0" })],
    indexFileExists := true,
    commits := [] }

/-! ## Specification-side predicates -/

/-- The location-code grammar of the specification, stated positionally:
`path` decomposes as `PREFIX-AREA.ITEM` with a nonempty uppercase-letter
prefix, a nonempty digit area, and a 2–3 digit item. -/
def IsJdMatch (path pre areaStr itemStr : String) : Prop :=
  path.toList = pre.toList ++ '-' :: (areaStr.toList ++ '.' :: itemStr.toList) ∧
  pre.toList ≠ [] ∧ (∀ c ∈ pre.toList, isUpperAZ c = true) ∧
  areaStr.toList ≠ [] ∧ (∀ c ∈ areaStr.toList, c.isDigit = true) ∧
  (∀ c ∈ itemStr.toList, c.isDigit = true) ∧
  (itemStr.toList.length = 2 ∨ itemStr.toList.length = 3)

/-- The specification's validity notion for a location code: it matches the
grammar, the prefix is the repository's, the area is declared, and the
numeric value lies within some declared category range of that area. -/
def ValidLocation (sc : Schema) (path : String) : Prop :=
  ∃ pre areaStr itemStr,
    IsJdMatch path pre areaStr itemStr ∧
    pre = sc.userPrefix ∧
    ∃ area ∈ sc.areas, area.id = (digitsToNat areaStr : ℤ) ∧
      ∃ cat ∈ area.categories,
        (cat.range.1).toRat ≤ (decimalValue areaStr itemStr).toRat ∧
        (decimalValue areaStr itemStr).toRat ≤ (cat.range.2).toRat

/-- The match list of `HashManager.resolve`: the paths of exactly the
entries whose hash starts with the given partial hash. -/
def resolveMatches (index : HashIndex) (partHash : String) : List String :=
  ((index : List (String × IndexEntry)).filter
    (fun p => strStartsWith partHash p.1)).map (fun p => p.2.path)

/-! ## General lemmas -/

lemma mk_toList (s : String) : String.mk s.toList = s := by
  cases s
  rfl

lemma toList_mk (l : List Char) : (String.mk l).toList = l := rfl

lemma dLe_iff (x y : D) : dLe x y = true ↔ x.toRat ≤ y.toRat := by
  have hx : (0:ℤ) ≤ x.e - min x.e y.e := sub_nonneg.mpr (min_le_left _ _)
  have hy : (0:ℤ) ≤ y.e - min x.e y.e := sub_nonneg.mpr (min_le_right _ _)
  have h2 : (0:ℚ) < (2:ℚ) ^ (min x.e y.e) := zpow_pos (by norm_num) _
  have key : ∀ (m e : ℤ), 0 ≤ e - min x.e y.e →
      ((m * 2 ^ (e - min x.e y.e).toNat : ℤ) : ℚ) * (2:ℚ) ^ (min x.e y.e)
        = (m : ℚ) * (2:ℚ) ^ e := by
    intro m e he
    push_cast
    rw [mul_assoc, ← zpow_natCast (2:ℚ) (e - min x.e y.e).toNat,
      Int.toNat_of_nonneg he, ← zpow_add₀ (two_ne_zero) (e - min x.e y.e) (min x.e y.e),
      sub_add_cancel]
  unfold dLe D.toRat
  rw [decide_eq_true_eq]
  constructor
  · intro h
    have h3 := (mul_le_mul_right h2).mpr ((@Int.cast_le ℚ _ _ _).mpr h)
    rwa [key x.m x.e hx, key y.m y.e hy] at h3
  · intro h
    have h3 : ((x.m * 2 ^ (x.e - min x.e y.e).toNat : ℤ) : ℚ) * (2:ℚ) ^ (min x.e y.e)
        ≤ ((y.m * 2 ^ (y.e - min x.e y.e).toNat : ℤ) : ℚ) * (2:ℚ) ^ (min x.e y.e) := by
      rw [key x.m x.e hx, key y.m y.e hy]
      exact h
    exact (@Int.cast_le ℚ _ _ _).mp ((mul_le_mul_right h2).mp h3)

lemma takeWhile_append_cons {α : Type} (p : α → Bool) (l1 : List α) (c : α)
    (l2 : List α) (h1 : ∀ x ∈ l1, p x = true) (h2 : p c = false) :
    (l1 ++ c :: l2).takeWhile p = l1 ∧ (l1 ++ c :: l2).dropWhile p = c :: l2 := by
  induction l1 with
  | nil => simp [List.takeWhile_cons, List.dropWhile_cons, h2]
  | cons a l ih =>
    have ha : p a = true := h1 a (by simp)
    have hrec := ih (fun x hx => h1 x (by simp [hx]))
    simp [List.takeWhile_cons, List.dropWhile_cons, ha, hrec.1, hrec.2]

/-- Parser correctness: `matchJd` succeeds with groups `(pre, a, i)` exactly
when the input matches the grammar with that (necessarily unique)
decomposition. -/
lemma matchJd_iff (s : String) (pre a i : String) :
    matchJd s = some (pre, a, i) ↔ IsJdMatch s pre a i := by
  constructor
  · intro h
    unfold matchJd at h
    split at h
    case _ => exact absurd h (by simp)
    case _ c1 rest1 hdw =>
      split at h
      case _ => exact absurd h (by simp)
      case _ c2 rest3 hdw2 =>
        split at h
        case isFalse => exact absurd h (by simp)
        case isTrue hcond =>
          simp only [Bool.and_eq_true, decide_eq_true_eq, Bool.or_eq_true,
            beq_iff_eq] at hcond
          obtain ⟨⟨⟨⟨⟨hc1, hc2⟩, hpre0⟩, har0⟩, hdig3⟩, hlen⟩ := hcond
          subst hc1
          subst hc2
          injection h with h2
          rw [Prod.mk.injEq, Prod.mk.injEq] at h2
          obtain ⟨hp, ha, hi⟩ := h2
          subst hp
          subst ha
          subst hi
          have hsplit1 : s.toList = s.toList.takeWhile isUpperAZ ++ '-' :: rest1 := by
            conv_lhs => rw [← List.takeWhile_append_dropWhile isUpperAZ s.toList]
            rw [hdw]
          have hsplit2 : rest1 = rest1.takeWhile Char.isDigit ++ '.' :: rest3 := by
            conv_lhs => rw [← List.takeWhile_append_dropWhile Char.isDigit rest1]
            rw [hdw2]
          refine ⟨?_, ?_, ?_, ?_, ?_, ?_, ?_⟩
          · rw [hsplit2] at hsplit1
            exact hsplit1
          · exact hpre0
          · intro c hc
            exact List.mem_takeWhile_imp hc
          · exact har0
          · intro c hc
            exact List.mem_takeWhile_imp hc
          · intro c hc
            exact List.all_eq_true.mp hdig3 c hc
          · exact hlen
  · rintro ⟨hsplit, hpre0, hupper, har0, hdig, hdig3, hlen⟩
    have hstep1 := takeWhile_append_cons isUpperAZ pre.toList '-'
      (a.toList ++ '.' :: i.toList) hupper (by decide)
    have hstep2 := takeWhile_append_cons Char.isDigit a.toList '.' i.toList hdig
      (by decide)
    unfold matchJd
    rw [hsplit, hstep1.2]
    dsimp only
    rw [hstep2.2]
    dsimp only
    rw [hstep1.1, hstep2.1]
    have hif : (('-' == '-') && ('.' == '.') && decide (pre.toList ≠ []) &&
        decide (a.toList ≠ []) && i.toList.all Char.isDigit &&
        (i.toList.length == 2 || i.toList.length == 3)) = true := by
      simp only [Bool.and_eq_true, decide_eq_true_eq, Bool.or_eq_true, beq_iff_eq,
        List.all_eq_true]
      exact ⟨⟨⟨⟨⟨trivial, trivial⟩, hpre0⟩, har0⟩, fun c hc => hdig3 c hc⟩, hlen⟩
    rw [if_pos hif]
    rw [mk_toList, mk_toList, mk_toList]

lemma find?_area_of_mem (l : List Area) (area : Area)
    (hnd : (l.map Area.id).Nodup) (hmem : area ∈ l) :
    l.find? (fun b => b.id == area.id) = some area := by
  induction l with
  | nil => cases hmem
  | cons b t ih =>
    rcases List.mem_cons.mp hmem with hb | ht
    · subst hb
      simp [List.find?_cons]
    · have hbne : (b.id == area.id) = false := by
        by_contra hcon
        have hbeq : b.id = area.id := by
          simpa using (Bool.not_eq_false _).mp hcon
        have : b.id ∈ t.map Area.id := hbeq ▸ List.mem_map_of_mem Area.id ht
        exact (List.nodup_cons.mp hnd).1 this
      simp only [List.find?_cons, hbne]
      exact ih (List.nodup_cons.mp hnd).2 ht

/-! ## Claim theorems -/

/-- C4: provided the declared area ids are distinct (so "the area" is
well-defined), `validate_path` returns `true` exactly on the codes that
match the grammar `PREFIX-AREA.ITEM`, carry the repository's prefix, name a
declared area, and whose numeric value lies within some declared category
range of that area; it is a total boolean function, so every malformed or
rejected input yields `false` rather than an exception. -/
theorem C4_validate_path_iff (sc : Schema) (path : String)
    (hnd : (sc.areas.map Area.id).Nodup) :
    sc.validate_path path = true ↔ ValidLocation sc path := by
  constructor
  · intro h
    unfold Schema.validate_path at h
    split at h
    case _ => exact absurd h (by simp)
    case _ pre areaStr itemStr hm =>
      split at h
      case isTrue => exact absurd h (by simp)
      case isFalse hpre =>
        split at h
        case _ => exact absurd h (by simp)
        case _ area hga =>
          rw [List.any_eq_true] at h
          obtain ⟨cat, hcmem, hcont⟩ := h
          simp only [Category.contains, Bool.and_eq_true] at hcont
          refine ⟨pre, areaStr, itemStr, (matchJd_iff path pre areaStr itemStr).mp hm,
            not_not.mp hpre, area, List.mem_of_find?_eq_some hga, ?_, cat, hcmem,
            (dLe_iff _ _).mp hcont.1, (dLe_iff _ _).mp hcont.2⟩
          have := List.find?_some hga
          simpa using this
  · rintro ⟨pre, areaStr, itemStr, hm, hpre, area, hmem, hid, cat, hcmem, hc1, hc2⟩
    unfold Schema.validate_path
    rw [(matchJd_iff path pre areaStr itemStr).mpr hm]
    dsimp only
    rw [if_neg (not_not.mpr hpre)]
    have hga : sc.get_area (digitsToNat areaStr : ℤ) = some area := by
      unfold Schema.get_area
      rw [← hid]
      exact find?_area_of_mem sc.areas area hnd hmem
    rw [hga]
    dsimp only
    rw [List.any_eq_true]
    refine ⟨cat, hcmem, ?_⟩
    simp only [Category.contains, Bool.and_eq_true]
    exact ⟨(dLe_iff _ _).mpr hc1, (dLe_iff _ _).mpr hc2⟩

/-- Witness for C4: the specification's own example schema (prefix `AC`,
area 10, category range `(10.001, 10.099)`) instantiates the theorem, its
hypothesis discharged by computation. -/
theorem C4_witness :
    (exSchema.areas.map Area.id).Nodup ∧
    (exSchema.validate_path "AC-10.050" = true ↔ ValidLocation exSchema "AC-10.050") :=
  ⟨by decide, C4_validate_path_iff exSchema "AC-10.050" (by decide)⟩

lemma from_file_ok_path (p : String) (doc : FMDoc) (m : Memo)
    (h : Memo.from_file p doc = .ok m) : m.file_path = some p := by
  unfold Memo.from_file at h
  split at h
  · injection h with h2
    subst h2
    rfl
  · exact absurd h (by simp)

lemma generate_hash_cases (uuids : ℕ → String) (index : HashIndex) :
    (∃ h, HashManager.generate_hash uuids index = .ok h ∧ keyMem index h = false) ∨
      HashManager.generate_hash uuids index = .error .generationExhausted := by
  unfold HashManager.generate_hash
  dsimp only
  by_cases hk : keyMem index (generateHashLoop uuids index 100 0 ((uuids 0).take 6) 6) = true
  · right
    rw [if_pos hk]
  · left
    exact ⟨_, by rw [if_neg hk], by simpa using hk⟩

/-- C5: `generate_hash` either returns a hash that is absent from the index
at the moment it is returned, or — when collisions persist — fails with the
generation-exhausted error; the loop is bounded by the source's own
`max_attempts = 100` (the model's fuel), so it cannot run forever.
Consequently registering a freshly generated hash preserves the
no-duplicate-hashes invariant of the index. -/
theorem C5_generate_hash_fresh (uuids : ℕ → String) (index : HashIndex) :
    ((∃ h, HashManager.generate_hash uuids index = .ok h ∧ keyMem index h = false) ∨
      HashManager.generate_hash uuids index = .error .generationExhausted) ∧
    (∀ h path jd now, (index.map Prod.fst).Nodup →
      HashManager.generate_hash uuids index = .ok h →
      ((HashManager.register index h path jd now).map Prod.fst).Nodup) := by
  constructor
  · exact generate_hash_cases uuids index
  · intro h path jd now hnd hok
    have hfresh : keyMem index h = false := by
      rcases generate_hash_cases uuids index with ⟨h2, hok2, hf2⟩ | herr
      · rw [hok] at hok2
        injection hok2 with he
        rw [he]
        exact hf2
      · rw [hok] at herr
        cases herr
    have hnotmem : h ∉ index.map Prod.fst := by
      intro hmem
      obtain ⟨q, hq, he⟩ := List.mem_map.mp hmem
      have : keyMem index h = true :=
        List.any_eq_true.mpr ⟨q, hq, by simp [he]⟩
      rw [hfresh] at this
      cases this
    unfold HashManager.register
    rw [if_neg (by simp [hfresh])]
    rw [List.map_append]
    exact List.Nodup.append hnd (by simp)
      (fun a ha hb => by
        simp only [List.map_cons, List.map_nil, List.mem_singleton] at hb
        exact hnotmem (hb ▸ ha))

/-- Witness for C5: on an empty index the generated hash is the first six
characters of the draw and registering it keeps the index duplicate-free. -/
theorem C5_witness :
    (([] : HashIndex).map Prod.fst).Nodup ∧
    HashManager.generate_hash (fun _ => "abcdef0123456789") [] = .ok "abcdef" ∧
    ((HashManager.register [] "abcdef" "00-Inbox/abcdef_t.md" none "t0").map
      Prod.fst).Nodup :=
  ⟨by decide, by decide,
    (C5_generate_hash_fresh (fun _ => "abcdef0123456789") []).2 "abcdef"
      "00-Inbox/abcdef_t.md" none "t0" (by decide) (by decide)⟩

/-- C2: `resolve` returns exactly the paths of the entries whose hash starts
with the given prefix, raising not-found when there are none; the read path
surfaces an ambiguous-match error when two or more entries match, and
returns precisely the single matching note when exactly one does. -/
theorem C2_resolve_cases (st : MFState) (ph : String) :
    (resolveMatches st.index ph ≠ [] →
      HashManager.resolve st.index ph = .ok (resolveMatches st.index ph)) ∧
    (resolveMatches st.index ph = [] →
      HashManager.resolve st.index ph = .error .notFound) ∧
    (2 ≤ (resolveMatches st.index ph).length →
      FileManager.read_file st ph = .error .ambiguousHash) ∧
    (∀ p doc m, resolveMatches st.index ph = [p] → st.getFile p = some doc →
      Memo.from_file p doc = .ok m →
      FileManager.read_file st ph = .ok m ∧ m.file_path = some p) := by
  have hres : HashManager.resolve st.index ph =
      if (resolveMatches st.index ph).isEmpty then .error .notFound
      else .ok (resolveMatches st.index ph) := rfl
  refine ⟨?_, ?_, ?_, ?_⟩
  · intro hne
    rw [hres, if_neg (by simpa [List.isEmpty_iff] using hne)]
  · intro he
    rw [hres, if_pos (by simpa [List.isEmpty_iff] using he)]
  · intro hlen
    unfold FileManager.read_file
    rw [hres, if_neg (fun hcon => by
      rw [List.isEmpty_iff] at hcon
      rw [hcon] at hlen
      exact absurd hlen (by decide))]
    dsimp only
    rw [if_pos (by omega)]
  · intro p doc m hone hdoc hm
    unfold FileManager.read_file
    rw [hres, if_neg (by simp [hone])]
    dsimp only
    rw [hone]
    dsimp only
    rw [hdoc]
    exact ⟨hm, from_file_ok_path p doc m hm⟩

/-- A store holding two notes whose hashes share the prefix `ab`. -/
def stTwo : MFState :=
  { files := [("00-Inbox/abc123_T.md", mkDoc "abc123" "HANK-00.01"),
              ("00-Inbox/abd456_U.md", mkDoc "abd456" "HANK-00.02")],
    index := [("abc123", { path := "00-Inbox/abc123_T.md",
                           id := some "HANK-00.01", last_updated := "t0" }),
              ("abd456", { path := "00-Inbox/abd456_U.md",
                           id := some "HANK-00.02", last_updated := "t0" })],
    indexFileExists := true,
    commits := [] }

/-- The note of `stTwo` with hash `abc123`, as parsed by `Memo.from_file`. -/
def mABC : Memo :=
  { uuid := "abc123", id := "HANK-00.01", title := "t", status := "open",
    created_at := "2026-01-01T00:00:00", type := none, due_date := none,
    tags := [], content := "", file_path := some "00-Inbox/abc123_T.md" }

/-- Witness for C2: on `stTwo`, the prefix `ab` resolves to both entries and
reading it is ambiguous; `zz` matches nothing and is not-found; `abc`
matches exactly one note, which is returned with its path. -/
theorem C2_witness :
    HashManager.resolve stTwo.index "ab" =
      .ok ["00-Inbox/abc123_T.md", "00-Inbox/abd456_U.md"] ∧
    FileManager.read_file stTwo "ab" = .error .ambiguousHash ∧
    HashManager.resolve stTwo.index "zz" = .error .notFound ∧
    ∃ m, FileManager.read_file stTwo "abc" = .ok m ∧
      m.file_path = some "00-Inbox/abc123_T.md" := by
  refine ⟨?_, ?_, ?_, ?_⟩
  · rw [(C2_resolve_cases stTwo "ab").1 (by decide)]
    decide
  · exact (C2_resolve_cases stTwo "ab").2.2.1 (by decide)
  · exact (C2_resolve_cases stTwo "zz").2.1 (by decide)
  · exact ⟨mABC, (C2_resolve_cases stTwo "abc").2.2.2 "00-Inbox/abc123_T.md"
      (mkDoc "abc123" "HANK-00.01") mABC (by decide) (by decide) (by decide)⟩

/-- C3: when the note's current location code differs from the expected one,
or the target code fails taxonomy validation, `move_file` raises
(path-mismatch, respectively invalid-path) and the store — files, index,
and version log alike — is exactly as it was: both checks precede every
mutation. -/
theorem C3_move_fails_before_mutation (sc : Schema) (st : MFState) (now : String)
    (hash_id old_path new_jd_id old_p : String) (doc : FMDoc) (memo : Memo)
    (h1 : HashManager.resolve st.index hash_id = .ok [old_p])
    (h2 : st.getFile old_p = some doc)
    (h3 : Memo.from_file old_p doc = .ok memo) :
    (memo.id ≠ old_path →
      FileManager.move_file sc st now hash_id old_path new_jd_id =
        .error (.pathMismatch, st)) ∧
    (memo.id = old_path → sc.validate_path new_jd_id = false →
      FileManager.move_file sc st now hash_id old_path new_jd_id =
        .error (.invalidPath, st)) := by
  constructor
  · intro hne
    unfold FileManager.move_file
    rw [h1]
    dsimp only
    rw [if_neg (by simp)]
    rw [h2]
    dsimp only
    rw [h3]
    dsimp only
    rw [if_pos hne]
  · intro heq hval
    unfold FileManager.move_file
    rw [h1]
    dsimp only
    rw [if_neg (by simp)]
    rw [h2]
    dsimp only
    rw [h3]
    dsimp only
    rw [if_neg (by simp [heq]), if_pos (by simp [hval])]

/-- Witness for C3: on the one-note store `stMove`, a stale expected code
raises path-mismatch, and an unknown target area raises invalid-path; the
store is returned untouched in both cases. -/
theorem C3_witness :
    FileManager.move_file sc10 stMove "t1" "abc123" "HANK-00.02" "HANK-10.001" =
      .error (.pathMismatch, stMove) ∧
    FileManager.move_file sc10 stMove "t1" "abc123" "HANK-00.01" "HANK-99.001" =
      .error (.invalidPath, stMove) :=
  ⟨(C3_move_fails_before_mutation sc10 stMove "t1" "abc123" "HANK-00.02" "HANK-10.001"
      "00-Inbox/abc123_T.md" (mkDoc "abc123" "HANK-00.01") mABC
      (by decide) (by decide) (by decide)).1 (by decide),
   (C3_move_fails_before_mutation sc10 stMove "t1" "abc123" "HANK-00.01" "HANK-99.001"
      "00-Inbox/abc123_T.md" (mkDoc "abc123" "HANK-00.01") mABC
      (by decide) (by decide) (by decide)).2 (by decide) (by decide)⟩

lemma setFile_index (st : MFState) (p : String) (doc : FMDoc) :
    (st.setFile p doc).index = st.index := by
  unfold MFState.setFile
  split <;> rfl

lemma find?_map_set (l : List (String × FMDoc)) (p : String) (doc : FMDoc)
    (hf : (l.find? (fun q => q.1 == p)).isSome = true) :
    (l.map (fun q => if q.1 == p then (p, doc) else q)).find? (fun q => q.1 == p)
      = some (p, doc) := by
  induction l with
  | nil => simp at hf
  | cons a t ih =>
    rw [List.map_cons]
    by_cases ha : a.1 = p
    · rw [if_pos (by simpa using ha), List.find?_cons]
      have hb : ((p, doc).1 == p) = true := by simp
      rw [hb]
    · rw [if_neg (by simpa using ha), List.find?_cons]
      have hb : (a.1 == p) = false := by simpa using ha
      rw [hb]
      rw [List.find?_cons, hb] at hf
      exact ih hf

lemma find?_append_self (l : List (String × FMDoc)) (p : String) (doc : FMDoc)
    (hf : l.find? (fun q => q.1 == p) = none) :
    (l ++ [(p, doc)]).find? (fun q => q.1 == p) = some (p, doc) := by
  induction l with
  | nil => simp
  | cons a t ih =>
    by_cases ha : a.1 = p
    · rw [List.find?_cons] at hf
      have hb : (a.1 == p) = true := by simpa using ha
      rw [hb] at hf
      simp at hf
    · have hb : (a.1 == p) = false := by simpa using ha
      rw [List.find?_cons, hb] at hf
      rw [List.cons_append, List.find?_cons, hb]
      exact ih hf

lemma getFile_setFile (st : MFState) (p : String) (doc : FMDoc) :
    (st.setFile p doc).getFile p = some doc := by
  unfold MFState.setFile MFState.getFile
  by_cases hf : (st.files.find? (fun q => q.1 == p)).isSome = true
  · rw [if_pos hf]
    dsimp only
    rw [find?_map_set st.files p doc hf]
    rfl
  · rw [if_neg hf]
    dsimp only
    rw [find?_append_self st.files p doc (Option.not_isSome_iff_eq_none.mp
      (by simpa using hf))]
    rfl

/-- C9: `update_file` never touches the hash index: whatever body content or
metadata fields are patched, and whether the call returns or raises, every
index entry is exactly as before. -/
theorem C9_update_file_preserves_index (st : MFState) (hash_id : String)
    (content : Option String) (fm_updates : Option (List (String × FMVal)))
    (commit_message : Option String) :
    (resultState (FileManager.update_file st hash_id content fm_updates
      commit_message)).index = st.index := by
  unfold FileManager.update_file
  split
  · rfl
  · split
    · rfl
    · split
      · rfl
      · dsimp only
        split
        · simp [resultState, callAutoCommit, GitEngine.auto_commit, setFile_index]
        · simp [resultState, callAutoCommit, GitEngine.auto_commit, setFile_index]

/-- C10: `create_file` rejects a present but unknown kind with an
invalid-type error before generating a hash, writing a file, touching the
index, or committing — the store is returned exactly as it was; a call with
the kind absent passes the check, and on success the note it writes carries
no `type` key at all. -/
theorem C10_create_file_type_check (sc : Schema) (st : MFState)
    (uuids : ℕ → String) (now : String) (t : String) (title content : String)
    (target_dir : Option String) :
    (t ∉ validTypes →
      FileManager.create_file sc st uuids now (some t) title content target_dir =
        .error (.invalidType, st)) ∧
    (∀ st2 h p, FileManager.create_file sc st uuids now none title content
        target_dir = .ok (st2, (h, p)) →
      ∃ doc, st2.getFile p = some doc ∧ dictGet doc.metadata "type" = none) := by
  constructor
  · intro ht
    unfold FileManager.create_file
    rw [if_pos (by simpa using ht)]
  · intro st2 h p hok
    unfold FileManager.create_file at hok
    rw [if_neg (by simp)] at hok
    split at hok
    · cases hok
    case _ hash_id hgen =>
      dsimp only at hok
      injection hok with hok2
      rw [Prod.mk.injEq, Prod.mk.injEq] at hok2
      obtain ⟨hst, hh, hp⟩ := hok2
      subst hst
      subst hh
      subst hp
      exact ⟨_, getFile_setFile st _ _, rfl⟩

/-- Witness for C10: the unknown kind `movie` is rejected with the store
untouched, while a kind-less create on the same store succeeds and writes a
note without a `type` key. -/
theorem C10_witness :
    ("movie" ∉ validTypes) ∧
    FileManager.create_file sc10 stMove (fun _ => "deadbeef12345678") "t2"
      (some "movie") "T" "" none = .error (.invalidType, stMove) ∧
    ∃ doc, (resultState (FileManager.create_file sc10 stMove
        (fun _ => "deadbeef12345678") "t2" none "T" "" none)).getFile
        "00-Inbox/deadbe_T.md" = some doc ∧
      dictGet doc.metadata "type" = none := by
  refine ⟨by decide,
    (C10_create_file_type_check sc10 stMove (fun _ => "deadbeef12345678") "t2"
      "movie" "T" "" none).1 (by decide), ?_⟩
  exact (C10_create_file_type_check sc10 stMove (fun _ => "deadbeef12345678") "t2"
    "movie" "T" "" none).2
    (resultState (FileManager.create_file sc10 stMove
      (fun _ => "deadbeef12345678") "t2" none "T" "" none))
    "deadbe" "00-Inbox/deadbe_T.md" (by decide)

/-- C8: serializing a note with `to_markdown` and parsing it back with
`from_file` reproduces its hash (`uuid`), location code (`id`), title,
status, kind (`type`, absence preserved as untyped) and tags.  The
hypothesis excludes `type = some ""`, which the store never writes: `create`
rejects every present kind outside the closed nonempty set. -/
theorem C8_round_trip (m : Memo) (p : String) (h : m.type ≠ some "") :
    ∃ m2, Memo.from_file p (Memo.to_markdown m) = .ok m2 ∧
      m2.uuid = m.uuid ∧ m2.id = m.id ∧ m2.title = m.title ∧
      m2.status = m.status ∧ m2.type = m.type ∧ m2.tags = m.tags := by
  obtain ⟨uuid, id, title, status, created_at, mtype, mdue, tags, content, fp⟩ := m
  rcases mtype with _ | t <;> rcases mdue with _ | d <;>
    rcases tags with _ | ⟨tg, tgs⟩
  all_goals first
    | exact ⟨_, rfl, rfl, rfl, rfl, rfl, rfl, rfl⟩
    | (have ht : ¬ t = "" := fun hc => h (by rw [hc])
       simp only [Memo.to_markdown, Memo.to_frontmatter, if_neg ht]
       exact ⟨_, rfl, rfl, rfl, rfl, rfl, rfl, rfl⟩)

/-- A fully populated note, as the store would write it. -/
def mW : Memo :=
  { uuid := "ab12cd", id := "HANK-10.001", title := "Title", status := "done",
    created_at := "2026-02-03T04:05:06", type := some "task",
    due_date := some "2026-03-01T00:00:00", tags := ["alpha", "beta"],
    content := "body text", file_path := none }

/-- Witness for C8: the round trip at a concrete typed, tagged note. -/
theorem C8_witness :
    (mW.type ≠ some "") ∧
    ∃ m2, Memo.from_file "10-20/10.001-10.099/ab12cd_Title.md"
        (Memo.to_markdown mW) = .ok m2 ∧
      m2.uuid = mW.uuid ∧ m2.id = mW.id ∧ m2.title = mW.title ∧
      m2.status = mW.status ∧ m2.type = mW.type ∧ m2.tags = mW.tags :=
  ⟨by decide, C8_round_trip mW "10-20/10.001-10.099/ab12cd_Title.md" (by decide)⟩

/-- C1 (the claim fails on the code): `GitEngine.auto_commit` accepts no
`removed_files` parameter, so the call `auto_commit(..., removed_files=[...])`
in `move_file` raises `TypeError` before anything is staged; `move_file`
catches and merely logs it.  Consequently a fully successful move — file
written at the new location, old file deleted, index updated — records no
commit at all: starting from an empty version log, the log is still empty
afterwards, with no `refactor` commit of the addition and the removal. -/
theorem C1_move_records_no_commit :
    (∀ (st : MFState) (ct : CommitType) (scope msg : String) (fs : List String),
      callAutoCommit st ct scope msg fs ["removed_files"] =
        .error .unexpectedKeywordArgument) ∧
    stMove.commits = [] ∧
    (∃ st2, FileManager.move_file sc10 stMove "t1" "abc123" "HANK-00.01"
        "HANK-10.001" = .ok (st2, "10-20/10.001-10.099/abc123_T.md") ∧
      st2.commits = []) := by
  refine ⟨fun st ct scope msg fs => rfl, rfl, ?_⟩
  exact ⟨resultState (FileManager.move_file sc10 stMove "t1" "abc123"
    "HANK-00.01" "HANK-10.001"), by decide, by decide⟩

/-- C6 (the claim fails on the code): for the category range
`(20.001, 20.003)` with 20.001 and 20.002 in use, the float-computed
iteration bound `int((20.003 - 20.001) / 0.001) + 1` evaluates to 2, so the
walk stops before ever testing 20.003: `generate_next_id` returns `None`
although 20.003 is validly inside the range and unused.  (The claim's own
example does hold: with `{10.001, 10.002}` used in `(10.001, 10.099)` the
code returns `10.003`.) -/
theorem C6_next_free_code_skips_range_end :
    SchemaManager.generate_next_id sc20 files20 20 1 = .ok none ∧
    collectUsedIds files20 "20-30/20.001-20.003" =
      [pyFloat 20001 3, pyFloat 20002 3] ∧
    (collectUsedIds files20 "20-30/20.001-20.003").contains (pyFloat 20003 3)
      = false ∧
    Schema.validate_path sc20 "HANK-20.003" = true ∧
    SchemaManager.generate_next_id sc10 files10 10 1 = .ok (some "HANK-10.003") := by
  exact ⟨by decide, by decide, by decide, by decide, by decide⟩

/-- C7 (the claim fails on the code): the declared range `(10.01, 10.09)`
carries no third significant fractional digit — the program's own
string-based precision test in `generate_next_id` says so for both bounds —
yet `get_directory_path` formats the category directory with three decimals,
`"10.010-10.090"` instead of the claimed `"10.01-10.09"`, because the float
test `range_start % 0.01 >= 0.001` is satisfied by `10.01 % 0.01 ≈ 0.00999…`. -/
theorem C7_directory_precision_mismatch :
    usesThreeDecimalStr (pyFloat 1001 2) = false ∧
    usesThreeDecimalStr (pyFloat 1009 2) = false ∧
    Schema.validate_path sc2dec "HANK-10.05" = true ∧
    Schema.get_directory_path sc2dec "HANK-10.05" = .ok "10-20/10.010-10.090" := by
  exact ⟨by decide, by decide, by decide, by decide⟩

end MemoFlow
